import Mathlib

/-!
# eventing-rate-limiter: the HTTP server of `server/server.go`

A shallow embedding of the three handlers registered by `main`
(`tiersHandler`, `myLLMEndpointHandler`, `myLLMResetEndpointHandler`) over the
two package-level variables `tiers` and `counter`, followed by the properties
of the handlers.

Modelling conventions
* `tiers : map[string]int` is an association list with map semantics:
  `Tiers.get?` is the two-valued index expression `v, ok := tiers[k]` and
  `Tiers.set` is the assignment `tiers[k] = v`, which overwrites the entry of
  an existing key and inserts a new entry otherwise.
* `counter : uint64` is a natural number below `2 ^ 64`; `atomic.AddUint64`
  adds modulo `2 ^ 64`.
* A request carries what the handlers read from `*http.Request`: the method,
  the path used by the mux, the result of `r.BasicAuth()` and the result of
  `json.NewDecoder(r.Body).Decode(&newTierLimits)`, the decoded map being
  listed in the order in which the `range` loop visits it.
* A response is the status code and the body written to the
  `http.ResponseWriter`.
-/

namespace RateLimiter

/-! ## Data model -/

/-- The Go type `map[string]int` of the variable `tiers`. -/
abbrev Tiers := List (String × Int)

/-- The index expression `v, ok := m[k]`: `none` stands for `ok = false`. -/
def Tiers.get? (m : Tiers) (k : String) : Option Int :=
  match m with
  | [] => none
  | (k1, v1) :: rest => if k1 = k then some v1 else Tiers.get? rest k

/-- The assignment `m[k] = v`: overwrite the entry of `k`, or insert one. -/
def Tiers.set (m : Tiers) (k : String) (v : Int) : Tiers :=
  match m with
  | [] => [(k, v)]
  | (k1, v1) :: rest => if k1 = k then (k1, v) :: rest else (k1, v1) :: Tiers.set rest k v

/-- The key set of a map, in storage order. -/
def Tiers.keys (m : Tiers) : List String := m.map Prod.fst

/-- The package-level state: `var counter uint64` and `var tiers`. -/
structure State where
  counter : Nat
  tiers : Tiers
  deriving DecidableEq, Repr

/-- The initialiser of `tiers` (server.go lines 14-19). -/
def initialTiers : Tiers :=
  [("Bronze", 100), ("Silver", 200), ("Gold", 300), ("Platinum", 400)]

/-- The state at process start: `counter` is zero-initialised. -/
def initialState : State := { counter := 0, tiers := initialTiers }

def expectedUsername : String := "eventing"
def expectedPassword : String := "eventing123"

def MethodGet : String := "GET"
def MethodPost : String := "POST"

def StatusOK : Nat := 200
def StatusBadRequest : Nat := 400
def StatusUnauthorized : Nat := 401
def StatusNotFound : Nat := 404
def StatusMethodNotAllowed : Nat := 405

/-- What a handler writes to the `http.ResponseWriter`. -/
inductive Body where
  /-- Nothing written. -/
  | empty
  /-- The text written by `http.Error`. -/
  | error (msg : String)
  /-- The value `json.NewEncoder(w).Encode(tiers)`. -/
  | tiersJSON (m : Tiers)
  /-- The value `Encode(map[string]uint64{"counter": c})`. -/
  | counterJSON (c : Nat)
  /-- A page written by the library itself, such as the mux's redirect page. -/
  | page (text : String)
  deriving DecidableEq, Repr

structure Response where
  status : Nat
  body : Body
  deriving DecidableEq, Repr

/-- The call `http.Error(w, msg, code)`. -/
def httpError (msg : String) (code : Nat) : Response := { status := code, body := Body.error msg }

/-- What a handler reads from `*http.Request`. -/
structure Request where
  /-- The field `r.Method`. -/
  method : String
  /-- The field `r.URL.Path`, matched by the mux. -/
  path : String
  /-- The result of `r.BasicAuth()`: `none` for `ok = false`. -/
  basicAuth : Option (String × String)
  /-- The result of decoding the body into `map[string]int`: the error text,
  or the decoded map listed in the order the `range` loop visits it. -/
  decoded : Except String (List (String × Int))
  /-- What the default mux itself writes when it hands the request to none of
  the three handlers: 404 for a path that matches no pattern, or the 301
  redirect to the cleaned path for a path that is not clean. -/
  muxReply : Response := httpError "404 page not found" StatusNotFound

/-- The condition `!ok || username != expectedUsername || password != expectedPassword`
evaluated on the result of `r.BasicAuth()` (server.go lines 30, 69, 91). -/
def authFails (auth : Option (String × String)) : Bool :=
  match auth with
  | none => true
  | some (username, password) =>
    username != expectedUsername || password != expectedPassword

/-- The function `atomic.AddUint64(&counter, 1)` on a `uint64`. -/
def addUint64 (c : Nat) (delta : Nat) : Nat := (c + delta) % 2 ^ 64

/-! ## Handlers -/

/-- The loop `for tier, newLimit := range newTierLimits` of `tiersHandler`
(server.go lines 49-55). Returns the map after the loop and `some` response
when the loop left the handler through `return`. -/
def rangeNewTierLimits (tiers : Tiers) : List (String × Int) → Tiers × Option Response
  | [] => (tiers, none)
  | (tier, newLimit) :: rest =>
    match tiers.get? tier with
    | none => (tiers, some (httpError "Invalid tier" StatusBadRequest))
    | some _ => rangeNewTierLimits (tiers.set tier newLimit) rest

/-- The handler `tiersHandler` (server.go lines 27-61). Encoding a
`map[string]int` does not fail, so the `GET` branch always writes the map. -/
def tiersHandler (s : State) (r : Request) : State × Response :=
  if authFails r.basicAuth then
    (s, httpError "Unauthorized" StatusUnauthorized)
  else if r.method = MethodGet then
    (s, { status := StatusOK, body := Body.tiersJSON s.tiers })
  else if r.method = MethodPost then
    match r.decoded with
    | Except.error err => (s, httpError err StatusBadRequest)
    | Except.ok newTierLimits =>
      match rangeNewTierLimits s.tiers newTierLimits with
      | (tiers, some resp) => ({ s with tiers := tiers }, resp)
      | (tiers, none) => ({ s with tiers := tiers }, { status := StatusOK, body := Body.empty })
  else
    (s, httpError "Method not allowed" StatusMethodNotAllowed)

/-- The handler `myLLMEndpointHandler` (server.go lines 65-84). Encoding a
`map[string]uint64` does not fail, so the `GET` branch always writes the counter. -/
def myLLMEndpointHandler (s : State) (r : Request) : State × Response :=
  if r.method = MethodPost then
    if authFails r.basicAuth then
      (s, httpError "Unauthorized" StatusUnauthorized)
    else
      ({ s with counter := addUint64 s.counter 1 }, { status := StatusOK, body := Body.empty })
  else if r.method = MethodGet then
    (s, { status := StatusOK, body := Body.counterJSON s.counter })
  else
    (s, httpError "Method not allowed" StatusMethodNotAllowed)

/-- The handler `myLLMResetEndpointHandler` (server.go lines 88-100). -/
def myLLMResetEndpointHandler (s : State) (r : Request) : State × Response :=
  if r.method = MethodPost then
    if authFails r.basicAuth then
      (s, httpError "Unauthorized" StatusUnauthorized)
    else
      ({ s with counter := 0 }, { status := StatusOK, body := Body.empty })
  else
    (s, httpError "Method not allowed" StatusMethodNotAllowed)

/-- The routing set up by `main` (server.go lines 103-105): three exact
patterns on the default mux. A request whose path is none of the three is
answered by the mux itself (404, or 301 for a path that is not clean) and
reaches no handler. -/
def serve (s : State) (r : Request) : State × Response :=
  if r.path = "/tiers" then tiersHandler s r
  else if r.path = "/my-llm" then myLLMEndpointHandler s r
  else if r.path = "/my-llm/reset" then myLLMResetEndpointHandler s r
  else (s, r.muxReply)

/-- Requests served one after another: the final state and the responses. -/
def serveAll (s : State) : List Request → State × List Response
  | [] => (s, [])
  | r :: rest =>
    let (s1, resp) := serve s r
    let (s2, resps) := serveAll s1 rest
    (s2, resp :: resps)

/-- The state after serving the requests one after another. -/
def run (s : State) (rs : List Request) : State := (serveAll s rs).1

/-! ## Request builders -/

/-- The credentials `eventing:eventing123`. -/
def goodAuth : Option (String × String) := some (expectedUsername, expectedPassword)

/-- An authorized `POST /my-llm`. -/
def incrementRequest : Request :=
  { method := MethodPost, path := "/my-llm", basicAuth := goodAuth, decoded := Except.ok [] }

/-- An authorized `POST /my-llm/reset`. -/
def resetRequest : Request :=
  { method := MethodPost, path := "/my-llm/reset", basicAuth := goodAuth, decoded := Except.ok [] }

/-- A `GET /my-llm` with the given result of `r.BasicAuth()`. -/
def readRequest (auth : Option (String × String)) : Request :=
  { method := MethodGet, path := "/my-llm", basicAuth := auth, decoded := Except.ok [] }

/-- An authorized `POST /tiers` whose decoded body is visited in the given order. -/
def updateRequest (changes : List (String × Int)) : Request :=
  { method := MethodPost, path := "/tiers", basicAuth := goodAuth, decoded := Except.ok changes }

/-- An authorized `GET /tiers`. -/
def snapshotRequest : Request :=
  { method := MethodGet, path := "/tiers", basicAuth := goodAuth, decoded := Except.ok [] }


/-! ## Specification vocabulary -/

/-- The map obtained from `m` by assigning the pairs of `changes` from left to
right, as the spec words "the updates of these pairs applied". -/
def assignAll (m : Tiers) (changes : List (String × Int)) : Tiers :=
  changes.foldl (fun acc p => Tiers.set acc p.1 p.2) m

/-- The pairs of `changes` that precede the first pair whose name is not a key
of `m`; all of `changes` when every name is a key. -/
def leadingKnown (m : Tiers) (changes : List (String × Int)) : List (String × Int) :=
  changes.takeWhile (fun p => (Tiers.get? m p.1).isSome)

/-! ## Lemmas on the map operations and the handlers -/

theorem authFails_iff (auth : Option (String × String)) :
    authFails auth = true ↔ auth ≠ some ("eventing", "eventing123") := by
  unfold authFails expectedUsername expectedPassword
  rcases auth with _ | ⟨u, p⟩
  · simp
  · simp [Prod.ext_iff]
    tauto

theorem authFails_good : authFails (some ("eventing", "eventing123")) = false := by decide

theorem Tiers.get?_set (m : Tiers) (k : String) (v : Int) (k2 : String) :
    Tiers.get? (Tiers.set m k v) k2 = if k = k2 then some v else Tiers.get? m k2 := by
  induction m with
  | nil => simp [Tiers.set, Tiers.get?]
  | cons a rest ih =>
    obtain ⟨k1, v1⟩ := a
    by_cases h : k1 = k
    · subst h
      by_cases h2 : k1 = k2 <;> simp [Tiers.set, Tiers.get?, h2]
    · by_cases h2 : k1 = k2
      · subst h2
        have h3 : ¬ k = k1 := fun e => h e.symm
        simp [Tiers.set, Tiers.get?, h, h3]
      · simp [Tiers.set, Tiers.get?, h, h2, ih]

theorem Tiers.keys_set (m : Tiers) (k : String) (v : Int) (h : (Tiers.get? m k).isSome) :
    Tiers.keys (Tiers.set m k v) = Tiers.keys m := by
  induction m with
  | nil => simp [Tiers.get?] at h
  | cons a rest ih =>
    obtain ⟨k1, v1⟩ := a
    by_cases h1 : k1 = k
    · simp [Tiers.set, Tiers.keys, h1]
    · simp only [Tiers.get?, h1, if_false] at h
      have := ih h
      simp only [Tiers.keys] at this
      simp [Tiers.set, Tiers.keys, h1, this]

theorem Tiers.mem_set (m : Tiers) (k : String) (v : Int) (p : String × Int)
    (hp : p ∈ Tiers.set m k v) : p ∈ m ∨ p.2 = v := by
  induction m with
  | nil =>
    simp [Tiers.set] at hp
    right; rw [hp]
  | cons a rest ih =>
    obtain ⟨k1, v1⟩ := a
    by_cases h1 : k1 = k
    · simp only [Tiers.set, h1, if_true, List.mem_cons] at hp
      rcases hp with hp | hp
      · right; rw [hp]
      · left; exact List.mem_cons_of_mem _ hp
    · simp only [Tiers.set, h1, if_false, List.mem_cons] at hp
      rcases hp with hp | hp
      · left; rw [hp]; exact List.mem_cons_self _ _
      · rcases ih hp with h | h
        · left; exact List.mem_cons_of_mem _ h
        · right; exact h

theorem leadingKnown_set (m : Tiers) (k : String) (v : Int) (h : (Tiers.get? m k).isSome)
    (changes : List (String × Int)) :
    leadingKnown (Tiers.set m k v) changes = leadingKnown m changes := by
  unfold leadingKnown
  congr 1
  funext p
  rw [Tiers.get?_set]
  by_cases hk : k = p.1
  · subst hk; simp [h]
  · simp [hk]

theorem rangeNewTierLimits_eq (m : Tiers) (changes : List (String × Int)) :
    rangeNewTierLimits m changes =
      (assignAll m (leadingKnown m changes),
        if ∀ p ∈ changes, (Tiers.get? m p.1).isSome then none
        else some (httpError "Invalid tier" StatusBadRequest)) := by
  induction changes generalizing m with
  | nil => simp [rangeNewTierLimits, assignAll, leadingKnown]
  | cons a rest ih =>
    obtain ⟨k, v⟩ := a
    cases hg : Tiers.get? m k with
    | none =>
      simp [rangeNewTierLimits, hg, assignAll, leadingKnown]
    | some x =>
      have hs : (Tiers.get? m k).isSome := by simp [hg]
      simp only [rangeNewTierLimits, hg, ih]
      rw [leadingKnown_set m k v hs]
      have hq : (∀ p ∈ rest, (Tiers.get? (Tiers.set m k v) p.1).isSome = true) ↔
          (∀ p ∈ (k, v) :: rest, (Tiers.get? m p.1).isSome = true) := by
        simp only [List.mem_cons, forall_eq_or_imp, hs, true_and]
        constructor
        · intro h p hp
          have := h p hp
          rw [Tiers.get?_set] at this
          by_cases hk : k = p.1
          · rw [← hk]; exact hs
          · simpa [hk] using this
        · intro h p hp
          rw [Tiers.get?_set]
          by_cases hk : k = p.1
          · simp [hk]
          · simpa [hk] using h p hp
      simp only [hq]
      congr 1
      simp [assignAll, leadingKnown, hg]


theorem leadingKnown_all (m : Tiers) (changes : List (String × Int))
    (h : ∀ p ∈ changes, (Tiers.get? m p.1).isSome) : leadingKnown m changes = changes := by
  unfold leadingKnown
  rw [List.takeWhile_eq_self_iff]
  exact h

theorem assignAll_get?_of_not_mem (changes : List (String × Int)) (m : Tiers) (k : String)
    (hk : k ∉ changes.map Prod.fst) : Tiers.get? (assignAll m changes) k = Tiers.get? m k := by
  induction changes generalizing m with
  | nil => rfl
  | cons a rest ih =>
    simp only [List.map_cons, List.mem_cons, not_or] at hk
    have h1 : assignAll m (a :: rest) = assignAll (Tiers.set m a.1 a.2) rest := rfl
    rw [h1, ih _ hk.2, Tiers.get?_set]
    have h2 : ¬ a.1 = k := fun e => hk.1 e.symm
    simp [h2]

theorem assignAll_get?_of_mem (changes : List (String × Int)) (m : Tiers)
    (hnd : (changes.map Prod.fst).Nodup) (p : String × Int) (hp : p ∈ changes) :
    Tiers.get? (assignAll m changes) p.1 = some p.2 := by
  induction changes generalizing m with
  | nil => simp at hp
  | cons a rest ih =>
    have h1 : assignAll m (a :: rest) = assignAll (Tiers.set m a.1 a.2) rest := rfl
    simp only [List.map_cons, List.nodup_cons] at hnd
    rw [h1]
    rcases List.mem_cons.mp hp with h | h
    · subst h
      rw [assignAll_get?_of_not_mem rest _ _ hnd.1, Tiers.get?_set]
      simp
    · exact ih _ hnd.2 h

theorem assignAll_keys (changes : List (String × Int)) (m : Tiers)
    (h : ∀ p ∈ changes, (Tiers.get? m p.1).isSome) :
    Tiers.keys (assignAll m changes) = Tiers.keys m := by
  induction changes generalizing m with
  | nil => rfl
  | cons a rest ih =>
    have h1 : assignAll m (a :: rest) = assignAll (Tiers.set m a.1 a.2) rest := rfl
    have ha : (Tiers.get? m a.1).isSome := h a (List.mem_cons_self _ _)
    rw [h1, ih, Tiers.keys_set m a.1 a.2 ha]
    intro p hp
    rw [Tiers.get?_set]
    by_cases hk : a.1 = p.1
    · simp [hk]
    · simpa [hk] using h p (List.mem_cons_of_mem _ hp)

theorem leadingKnown_known (m : Tiers) (changes : List (String × Int)) :
    ∀ p ∈ leadingKnown m changes, (Tiers.get? m p.1).isSome := by
  intro p hp
  have := List.mem_takeWhile_imp hp
  simpa using this

theorem rangeNewTierLimits_keys (m : Tiers) (changes : List (String × Int)) :
    Tiers.keys (rangeNewTierLimits m changes).1 = Tiers.keys m := by
  rw [rangeNewTierLimits_eq]
  exact assignAll_keys _ _ (leadingKnown_known m changes)

theorem tiersHandler_tiers (s : State) (r : Request) :
    (tiersHandler s r).1.tiers = s.tiers ∨
      ∃ changes, r.decoded = Except.ok changes ∧ r.method = MethodPost ∧
        (tiersHandler s r).1.tiers = (rangeNewTierLimits s.tiers changes).1 := by
  unfold tiersHandler
  split
  · left; rfl
  · split
    · left; rfl
    · split
      · rename_i hm
        cases hd : r.decoded with
        | error e => left; rfl
        | ok changes =>
          right
          refine ⟨changes, rfl, hm, ?_⟩
          simp only []
          split <;> simp_all
      · left; rfl

theorem serve_tiers (s : State) (r : Request) :
    (serve s r).1.tiers = s.tiers ∨
      ∃ changes, r.decoded = Except.ok changes ∧ r.path = "/tiers" ∧ r.method = MethodPost ∧
        (serve s r).1.tiers = (rangeNewTierLimits s.tiers changes).1 := by
  unfold serve
  split
  · rename_i hp
    rcases tiersHandler_tiers s r with h | ⟨c, h1, h2, h3⟩
    · left; exact h
    · right; exact ⟨c, h1, hp, h2, h3⟩
  · left
    split
    · unfold myLLMEndpointHandler
      repeat (first | rfl | split)
    · split
      · unfold myLLMResetEndpointHandler
        repeat (first | rfl | split)
      · rfl

theorem run_cons (s : State) (r : Request) (rs : List Request) :
    run s (r :: rs) = run (serve s r).1 rs := by
  simp [run, serveAll]

theorem run_keys (rs : List Request) (s : State) :
    Tiers.keys (run s rs).tiers = Tiers.keys s.tiers := by
  induction rs generalizing s with
  | nil => rfl
  | cons r rest ih =>
    rw [run_cons, ih]
    rcases serve_tiers s r with h | ⟨c, _, _, _, h⟩
    · rw [h]
    · rw [h, rangeNewTierLimits_keys]

theorem Tiers.get?_isSome_iff (m : Tiers) (k : String) :
    (Tiers.get? m k).isSome ↔ k ∈ Tiers.keys m := by
  induction m with
  | nil => simp [Tiers.get?, Tiers.keys]
  | cons a rest ih =>
    obtain ⟨k1, v1⟩ := a
    by_cases h : k1 = k
    · simp [Tiers.get?, Tiers.keys, h]
    · have h2 : ¬ k = k1 := fun e => h e.symm
      simp only [Tiers.keys] at ih
      simp [Tiers.get?, Tiers.keys, h, h2, ih]

theorem assignAll_nonneg (changes : List (String × Int)) (m : Tiers)
    (hm : ∀ p ∈ m, 0 ≤ p.2) (hc : ∀ p ∈ changes, 0 ≤ p.2) :
    ∀ p ∈ assignAll m changes, 0 ≤ p.2 := by
  induction changes generalizing m with
  | nil => exact hm
  | cons a rest ih =>
    have h1 : assignAll m (a :: rest) = assignAll (Tiers.set m a.1 a.2) rest := rfl
    rw [h1]
    apply ih
    · intro p hp
      rcases Tiers.mem_set m a.1 a.2 p hp with h | h
      · exact hm p h
      · rw [h]; exact hc a (List.mem_cons_self _ _)
    · intro p hp; exact hc p (List.mem_cons_of_mem _ hp)

theorem rangeNewTierLimits_nonneg (changes : List (String × Int)) (m : Tiers)
    (hm : ∀ p ∈ m, 0 ≤ p.2) (hc : ∀ p ∈ changes, 0 ≤ p.2) :
    ∀ p ∈ (rangeNewTierLimits m changes).1, 0 ≤ p.2 := by
  rw [rangeNewTierLimits_eq]
  apply assignAll_nonneg _ _ hm
  intro p hp
  exact hc p ((List.takeWhile_sublist _).subset hp)


theorem leadingKnown_split (m : Tiers) (changes : List (String × Int))
    (h : ∃ p ∈ changes, Tiers.get? m p.1 = none) :
    ∃ bad rest, changes = leadingKnown m changes ++ bad :: rest ∧ Tiers.get? m bad.1 = none := by
  induction changes with
  | nil => simp at h
  | cons a rest ih =>
    cases hg : Tiers.get? m a.1 with
    | none =>
      refine ⟨a, rest, ?_, hg⟩
      simp [leadingKnown, hg]
    | some x =>
      obtain ⟨p, hp, hpn⟩ := h
      rcases List.mem_cons.mp hp with e | hin
      · subst e; rw [hg] at hpn; cases hpn
      · obtain ⟨bad, tl, h1, h2⟩ := ih ⟨p, hin, hpn⟩
        refine ⟨bad, tl, ?_, h2⟩
        have : leadingKnown m (a :: rest) = a :: leadingKnown m rest := by
          simp [leadingKnown, hg]
        rw [this, List.cons_append, ← h1]

theorem serve_increment (s : State) (r : Request) (hm : r.method = "POST")
    (hp : r.path = "/my-llm") (ha : r.basicAuth = some ("eventing", "eventing123")) :
    serve s r = ({ counter := (s.counter + 1) % 2 ^ 64, tiers := s.tiers },
      { status := 200, body := Body.empty }) := by
  simp [serve, myLLMEndpointHandler, hm, hp, ha, authFails_good, MethodPost, addUint64, StatusOK]

theorem serveAll_cons (s : State) (r : Request) (rs : List Request) :
    serveAll s (r :: rs) = ((serveAll (serve s r).1 rs).1, (serve s r).2 :: (serveAll (serve s r).1 rs).2) := by
  simp [serveAll]

/-! ## The claims -/

/-- C1. A `POST` to `/tiers`, `/my-llm` or `/my-llm/reset` whose Basic
credentials are missing or differ from `eventing:eventing123` is answered
401 Unauthorized and leaves the counter and the registry as they were; a
`GET /my-llm` without credentials is answered 200 with the current counter. -/
theorem auth_gating (s : State) (r g : Request)
    (hm : r.method = "POST")
    (hp : r.path = "/tiers" ∨ r.path = "/my-llm" ∨ r.path = "/my-llm/reset")
    (hbad : r.basicAuth ≠ some ("eventing", "eventing123"))
    (hgm : g.method = "GET") (hgp : g.path = "/my-llm") (_hga : g.basicAuth = none) :
    serve s r = (s, { status := 401, body := Body.error "Unauthorized" }) ∧
    serve s g = (s, { status := 200, body := Body.counterJSON s.counter }) := by
  have hf := (authFails_iff r.basicAuth).mpr hbad
  constructor
  · rcases hp with hp | hp | hp <;>
      simp [serve, tiersHandler, myLLMEndpointHandler, myLLMResetEndpointHandler, hm, hp, hf,
        MethodPost, httpError, StatusUnauthorized]
  · simp [serve, myLLMEndpointHandler, hgm, hgp, MethodPost, MethodGet, StatusOK]

/-- C1, instance of `auth_gating` at a concrete state and request. -/
theorem auth_gating_witness :
    serve initialState
        { method := "POST", path := "/my-llm/reset", basicAuth := some ("eventing", "wrong"),
          decoded := Except.ok [] }
      = (initialState, { status := 401, body := Body.error "Unauthorized" }) ∧
    serve initialState (readRequest none)
      = (initialState, { status := 200, body := Body.counterJSON initialState.counter }) :=
  auth_gating initialState _ (readRequest none) rfl (Or.inr (Or.inr rfl)) (by decide) rfl rfl rfl

/-- C2. An authorized `POST /tiers` whose decoded map holds a name that is not
a key of the registry is answered 400 "Invalid tier", whatever the order in
which the pairs are visited. The visiting order splits at its first unknown
name, and reading the registry back afterwards gives: every name visited
before that point has its new limit (the earlier updates stay applied), every
other name, the unknown one and all later ones included, has what it had
before, and the keys and the counter are unchanged. -/
theorem partial_application (s : State) (r : Request) (decodedMap order : List (String × Int))
    (hm : r.method = "POST") (hp : r.path = "/tiers")
    (ha : r.basicAuth = some ("eventing", "eventing123"))
    (hperm : order.Perm decodedMap) (hd : r.decoded = Except.ok order)
    (hnd : (decodedMap.map Prod.fst).Nodup)
    (hunk : ∃ p ∈ decodedMap, Tiers.get? s.tiers p.1 = none) :
    (serve s r).2 = { status := 400, body := Body.error "Invalid tier" } ∧
    (serve s r).1.counter = s.counter ∧
    Tiers.keys (serve s r).1.tiers = Tiers.keys s.tiers ∧
    ∃ earlier bad later, order = earlier ++ bad :: later ∧
      (∀ p ∈ earlier, (Tiers.get? s.tiers p.1).isSome) ∧
      Tiers.get? s.tiers bad.1 = none ∧
      (∀ p ∈ earlier, Tiers.get? (serve s r).1.tiers p.1 = some p.2) ∧
      (∀ p ∈ bad :: later, Tiers.get? (serve s r).1.tiers p.1 = Tiers.get? s.tiers p.1) ∧
      (∀ k, k ∉ earlier.map Prod.fst →
        Tiers.get? (serve s r).1.tiers k = Tiers.get? s.tiers k) := by
  have hunk2 : ∃ p ∈ order, Tiers.get? s.tiers p.1 = none := by
    obtain ⟨p, hp1, hp2⟩ := hunk
    exact ⟨p, hperm.mem_iff.mpr hp1, hp2⟩
  have hnd2 : (order.map Prod.fst).Nodup := (hperm.map Prod.fst).nodup_iff.mpr hnd
  have hnot : ¬ ∀ p ∈ order, (Tiers.get? s.tiers p.1).isSome = true := by
    intro h
    obtain ⟨p, hp1, hp2⟩ := hunk2
    have := h p hp1
    rw [hp2] at this
    cases this
  have hrange : rangeNewTierLimits s.tiers order =
      (assignAll s.tiers (leadingKnown s.tiers order),
        some (httpError "Invalid tier" StatusBadRequest)) := by
    rw [rangeNewTierLimits_eq, if_neg hnot]
  have hserve : serve s r =
      ({ counter := s.counter, tiers := assignAll s.tiers (leadingKnown s.tiers order) },
        { status := 400, body := Body.error "Invalid tier" }) := by
    simp [serve, tiersHandler, hm, hp, ha, hd, authFails_good, MethodPost, MethodGet,
      hrange, httpError, StatusBadRequest]
  obtain ⟨bad, later, hsplit, hbad⟩ := leadingKnown_split s.tiers order hunk2
  have hknown := leadingKnown_known s.tiers order
  have hnd3 : ((leadingKnown s.tiers order).map Prod.fst ++ (bad :: later).map Prod.fst).Nodup := by
    rw [← List.map_append, ← hsplit]
    exact hnd2
  have hndE : ((leadingKnown s.tiers order).map Prod.fst).Nodup := (List.nodup_append.mp hnd3).1
  have hdisj := (List.nodup_append.mp hnd3).2.2
  rw [hserve]
  refine ⟨rfl, rfl, assignAll_keys _ _ hknown, leadingKnown s.tiers order, bad, later, hsplit,
    hknown, hbad, ?_, ?_, ?_⟩
  · intro p hp1
    exact assignAll_get?_of_mem _ s.tiers hndE p hp1
  · intro p hp1
    apply assignAll_get?_of_not_mem
    intro hin
    exact hdisj hin (List.mem_map_of_mem Prod.fst hp1)
  · intro k hk
    exact assignAll_get?_of_not_mem _ s.tiers k hk

/-- C2, instance of `partial_application` at the initial state: visiting Gold,
then the unknown name, then Silver leaves Gold at its new limit 1 and Silver at
its old limit 200. -/
theorem partial_application_witness :
    serve initialState (updateRequest [("Gold", 1), ("Nonexistent", 2), ("Silver", 3)])
      = ({ counter := 0,
           tiers := [("Bronze", 100), ("Silver", 200), ("Gold", 1), ("Platinum", 400)] },
         { status := 400, body := Body.error "Invalid tier" }) ∧
    ∃ earlier bad later,
      [(("Gold", 1) : String × Int), ("Nonexistent", 2), ("Silver", 3)] = earlier ++ bad :: later ∧
      (∀ p ∈ earlier, (Tiers.get? initialState.tiers p.1).isSome) ∧
      Tiers.get? initialState.tiers bad.1 = none ∧
      (∀ p ∈ earlier,
        Tiers.get? (serve initialState
          (updateRequest [("Gold", 1), ("Nonexistent", 2), ("Silver", 3)])).1.tiers p.1
          = some p.2) ∧
      (∀ p ∈ bad :: later,
        Tiers.get? (serve initialState
          (updateRequest [("Gold", 1), ("Nonexistent", 2), ("Silver", 3)])).1.tiers p.1
          = Tiers.get? initialState.tiers p.1) ∧
      (∀ k, k ∉ earlier.map Prod.fst →
        Tiers.get? (serve initialState
          (updateRequest [("Gold", 1), ("Nonexistent", 2), ("Silver", 3)])).1.tiers k
          = Tiers.get? initialState.tiers k) :=
  ⟨by decide,
   (partial_application initialState
    (updateRequest [("Gold", 1), ("Nonexistent", 2), ("Silver", 3)])
    [("Nonexistent", 2), ("Silver", 3), ("Gold", 1)]
    [("Gold", 1), ("Nonexistent", 2), ("Silver", 3)]
    rfl rfl rfl (by decide) rfl (by decide) ⟨("Nonexistent", 2), by decide, by decide⟩).2.2.2⟩

/-- C3. An authorized `POST /tiers` whose decoded map mentions only keys of
the registry is answered 200 whatever the order in which the pairs are
visited, and an authorized `GET /tiers` served next returns a mapping that
gives every changed name its new limit, every other name the limit it had
before, and has the same keys. -/
theorem tiers_round_trip (s : State) (r g : Request) (decodedMap order : List (String × Int))
    (hm : r.method = "POST") (hp : r.path = "/tiers")
    (ha : r.basicAuth = some ("eventing", "eventing123"))
    (hperm : order.Perm decodedMap) (hd : r.decoded = Except.ok order)
    (hnd : (decodedMap.map Prod.fst).Nodup)
    (hknown : ∀ p ∈ decodedMap, (Tiers.get? s.tiers p.1).isSome)
    (hgm : g.method = "GET") (hgp : g.path = "/tiers")
    (hga : g.basicAuth = some ("eventing", "eventing123")) :
    (serve s r).2 = { status := 200, body := Body.empty } ∧
    (serve s r).1.counter = s.counter ∧
    ∃ snapshot : Tiers,
      serve (serve s r).1 g = ((serve s r).1, { status := 200, body := Body.tiersJSON snapshot }) ∧
      (∀ p ∈ decodedMap, Tiers.get? snapshot p.1 = some p.2) ∧
      (∀ k, k ∉ decodedMap.map Prod.fst → Tiers.get? snapshot k = Tiers.get? s.tiers k) ∧
      Tiers.keys snapshot = Tiers.keys s.tiers := by
  have hknown2 : ∀ p ∈ order, (Tiers.get? s.tiers p.1).isSome = true :=
    fun p hp1 => hknown p (hperm.mem_iff.mp hp1)
  have hnd2 : (order.map Prod.fst).Nodup := (hperm.map Prod.fst).nodup_iff.mpr hnd
  have hrange : rangeNewTierLimits s.tiers order = (assignAll s.tiers order, none) := by
    rw [rangeNewTierLimits_eq, if_pos hknown2, leadingKnown_all _ _ hknown2]
  have hserve : serve s r = ({ counter := s.counter, tiers := assignAll s.tiers order },
      { status := 200, body := Body.empty }) := by
    simp [serve, tiersHandler, hm, hp, ha, hd, authFails_good, MethodPost, MethodGet,
      hrange, StatusOK]
  rw [hserve]
  refine ⟨rfl, rfl, assignAll s.tiers order, ?_, ?_, ?_, ?_⟩
  · simp [serve, tiersHandler, hgm, hgp, hga, authFails_good, MethodGet, StatusOK]
  · intro p hp1
    exact assignAll_get?_of_mem order s.tiers hnd2 p (hperm.mem_iff.mpr hp1)
  · intro k hk
    apply assignAll_get?_of_not_mem
    intro hin
    exact hk ((hperm.map Prod.fst).mem_iff.mp hin)
  · exact assignAll_keys _ _ hknown2

/-- C3, instance of `tiers_round_trip` at a concrete state and request. -/
theorem tiers_round_trip_witness :
    (serve initialState (updateRequest [("Gold", 999)])).2 = { status := 200, body := Body.empty } ∧
    (serve initialState (updateRequest [("Gold", 999)])).1.counter = initialState.counter ∧
    ∃ snapshot : Tiers,
      serve (serve initialState (updateRequest [("Gold", 999)])).1 snapshotRequest
        = ((serve initialState (updateRequest [("Gold", 999)])).1,
            { status := 200, body := Body.tiersJSON snapshot }) ∧
      (∀ p ∈ [(("Gold", 999) : String × Int)], Tiers.get? snapshot p.1 = some p.2) ∧
      (∀ k, k ∉ [(("Gold", 999) : String × Int)].map Prod.fst →
        Tiers.get? snapshot k = Tiers.get? initialState.tiers k) ∧
      Tiers.keys snapshot = Tiers.keys initialState.tiers :=
  tiers_round_trip initialState (updateRequest [("Gold", 999)]) snapshotRequest
    [("Gold", 999)] [("Gold", 999)] rfl rfl rfl (List.Perm.refl _) rfl (by decide) (by decide)
    rfl rfl rfl

/-- C4, counterexample. From the counter value `2 ^ 64 - 1` one authorized
`POST /my-llm` leaves the counter at 0, not at `2 ^ 64`. -/
theorem overflow_breaks_additivity :
    (serve { counter := 2 ^ 64 - 1, tiers := initialTiers } incrementRequest).2
      = { status := 200, body := Body.empty } ∧
    (run { counter := 2 ^ 64 - 1, tiers := initialTiers } [incrementRequest]).counter = 0 ∧
    (run { counter := 2 ^ 64 - 1, tiers := initialTiers } [incrementRequest]).counter
      ≠ (2 ^ 64 - 1) + 1 := by
  decide

/-- C4, amended. Serving `N` authorized `POST /my-llm` requests one after
another from a state whose counter is `C < 2 ^ 64` answers each with 200,
leaves the registry unchanged and leaves the counter at `(C + N) mod 2 ^ 64`,
which is `C + N` whenever `C + N < 2 ^ 64`. -/
theorem counter_additivity (s : State) (rs : List Request) (hC : s.counter < 2 ^ 64)
    (hrs : ∀ r ∈ rs, r.method = "POST" ∧ r.path = "/my-llm" ∧
      r.basicAuth = some ("eventing", "eventing123")) :
    (serveAll s rs).2 = List.replicate rs.length { status := 200, body := Body.empty } ∧
    (run s rs).counter = (s.counter + rs.length) % 2 ^ 64 ∧
    (run s rs).tiers = s.tiers ∧
    (s.counter + rs.length < 2 ^ 64 → (run s rs).counter = s.counter + rs.length) := by
  have main : (serveAll s rs).2 = List.replicate rs.length { status := 200, body := Body.empty } ∧
      (run s rs).counter = (s.counter + rs.length) % 2 ^ 64 ∧ (run s rs).tiers = s.tiers := by
    induction rs generalizing s with
    | nil =>
      refine ⟨rfl, ?_, rfl⟩
      simp only [run, serveAll, List.length_nil, Nat.add_zero]
      exact (Nat.mod_eq_of_lt hC).symm
    | cons r rest ih =>
      obtain ⟨h1, h2, h3⟩ := hrs r (List.mem_cons_self _ _)
      have hstep := serve_increment s r h1 h2 h3
      have hlt : (s.counter + 1) % 2 ^ 64 < 2 ^ 64 := Nat.mod_lt _ (by norm_num)
      obtain ⟨i1, i2, i3⟩ := ih { counter := (s.counter + 1) % 2 ^ 64, tiers := s.tiers } hlt
        (fun q hq => hrs q (List.mem_cons_of_mem _ hq))
      rw [run_cons, serveAll_cons, hstep]
      refine ⟨?_, ?_, ?_⟩
      · simp only [i1, List.length_cons, List.replicate_succ]
      · rw [i2]
        simp only [List.length_cons]
        omega
      · rw [i3]
  refine ⟨main.1, main.2.1, main.2.2, ?_⟩
  intro hlt
  rw [main.2.1]
  exact Nat.mod_eq_of_lt hlt

/-- C4, instance of `counter_additivity` at a concrete state and request. -/
theorem counter_additivity_witness :
    (serveAll initialState [incrementRequest, incrementRequest, incrementRequest]).2
      = List.replicate 3 { status := 200, body := Body.empty } ∧
    (run initialState [incrementRequest, incrementRequest, incrementRequest]).counter
      = (0 + 3) % 2 ^ 64 ∧
    (run initialState [incrementRequest, incrementRequest, incrementRequest]).tiers
      = initialTiers ∧
    (0 + 3 < 2 ^ 64 →
      (run initialState [incrementRequest, incrementRequest, incrementRequest]).counter = 0 + 3) :=
  counter_additivity initialState [incrementRequest, incrementRequest, incrementRequest]
    (by decide) (by decide)


/-- C5. An authorized `POST /my-llm/reset` is answered 200 and leaves the
counter at 0 and the registry unchanged, whatever the counter was; a
`GET /my-llm` served next returns counter 0; serving the reset twice gives
the same state as serving it once. -/
theorem reset_spec (s : State) (r g : Request)
    (hm : r.method = "POST") (hp : r.path = "/my-llm/reset")
    (ha : r.basicAuth = some ("eventing", "eventing123"))
    (hgm : g.method = "GET") (hgp : g.path = "/my-llm") :
    serve s r = ({ counter := 0, tiers := s.tiers }, { status := 200, body := Body.empty }) ∧
    (serve (serve s r).1 g).2 = { status := 200, body := Body.counterJSON 0 } ∧
    run s [r, r] = run s [r] := by
  have hserve : ∀ t : State, serve t r =
      ({ counter := 0, tiers := t.tiers }, { status := 200, body := Body.empty }) := by
    intro t
    simp [serve, myLLMResetEndpointHandler, hm, hp, ha, authFails_good, MethodPost, StatusOK]
  refine ⟨hserve s, ?_, ?_⟩
  · rw [hserve s]
    simp [serve, myLLMEndpointHandler, hgm, hgp, MethodPost, MethodGet, StatusOK]
  · simp [run, serveAll, hserve]

/-- C5, instance of `reset_spec` at a concrete state and request. -/
theorem reset_spec_witness :
    serve { counter := 41, tiers := initialTiers } resetRequest
      = ({ counter := 0, tiers := initialTiers }, { status := 200, body := Body.empty }) ∧
    (serve (serve { counter := 41, tiers := initialTiers } resetRequest).1 (readRequest none)).2
      = { status := 200, body := Body.counterJSON 0 } ∧
    run { counter := 41, tiers := initialTiers } [resetRequest, resetRequest]
      = run { counter := 41, tiers := initialTiers } [resetRequest] :=
  reset_spec { counter := 41, tiers := initialTiers } resetRequest (readRequest none)
    rfl rfl rfl rfl rfl

/-- C6, counterexample. `DELETE /tiers` without credentials is answered
401 Unauthorized, not 405. -/
theorem unauthorized_delete_tiers_not_405 :
    (serve initialState
      { method := "DELETE", path := "/tiers", basicAuth := none, decoded := Except.ok [] }).2
      = { status := 401, body := Body.error "Unauthorized" } ∧
    (serve initialState
      { method := "DELETE", path := "/tiers", basicAuth := none, decoded := Except.ok [] }).2.status
      ≠ 405 := by
  decide

/-- C6, amended. A request whose method is not supported on its path leaves
the counter and the registry unchanged; it is answered 405 Method Not Allowed
on `/my-llm` and `/my-llm/reset` whatever its credentials, and on `/tiers`
when it carries the credentials `eventing:eventing123`, while on `/tiers`
with missing or other credentials it is answered 401 Unauthorized. -/
theorem method_rejection (s : State) (r : Request)
    (h : (r.path = "/tiers" ∧ r.method ≠ "GET" ∧ r.method ≠ "POST") ∨
      (r.path = "/my-llm" ∧ r.method ≠ "GET" ∧ r.method ≠ "POST") ∨
      (r.path = "/my-llm/reset" ∧ r.method ≠ "POST")) :
    (serve s r).1 = s ∧
    (serve s r).2 =
      if r.path = "/tiers" ∧ r.basicAuth ≠ some ("eventing", "eventing123") then
        { status := 401, body := Body.error "Unauthorized" }
      else
        { status := 405, body := Body.error "Method not allowed" } := by
  rcases h with ⟨hp, hg, hpo⟩ | ⟨hp, hg, hpo⟩ | ⟨hp, hpo⟩
  · by_cases ha : r.basicAuth = some ("eventing", "eventing123")
    · simp [serve, tiersHandler, hp, hg, hpo, ha, authFails_good, MethodGet, MethodPost,
        httpError, StatusMethodNotAllowed]
    · have hf := (authFails_iff r.basicAuth).mpr ha
      simp [serve, tiersHandler, hp, ha, hf, httpError, StatusUnauthorized]
  · simp [serve, myLLMEndpointHandler, hp, hg, hpo, MethodGet, MethodPost,
      httpError, StatusMethodNotAllowed]
  · simp [serve, myLLMResetEndpointHandler, hp, hpo, MethodPost,
      httpError, StatusMethodNotAllowed]

/-- C6, instance of `method_rejection` at a concrete state and request. -/
theorem method_rejection_witness :
    (serve initialState
      { method := "DELETE", path := "/tiers", basicAuth := goodAuth, decoded := Except.ok [] }).1
      = initialState ∧
    (serve initialState
      { method := "DELETE", path := "/tiers", basicAuth := goodAuth, decoded := Except.ok [] }).2
      = { status := 405, body := Body.error "Method not allowed" } :=
  method_rejection initialState
    { method := "DELETE", path := "/tiers", basicAuth := goodAuth, decoded := Except.ok [] }
    (Or.inl ⟨rfl, by decide, by decide⟩)

/-- C7. In every state reached from the initial state by serving any finite
sequence of requests the registry has exactly the keys Bronze, Silver, Gold
and Platinum: no request inserts a tier name and none deletes one. -/
theorem registry_keys_invariant (rs : List Request) :
    Tiers.keys (run initialState rs).tiers = ["Bronze", "Silver", "Gold", "Platinum"] ∧
    ∀ name : String, (Tiers.get? (run initialState rs).tiers name).isSome ↔
      name ∈ ["Bronze", "Silver", "Gold", "Platinum"] := by
  have hk : Tiers.keys (run initialState rs).tiers = ["Bronze", "Silver", "Gold", "Platinum"] := by
    rw [run_keys]; rfl
  refine ⟨hk, ?_⟩
  intro name
  rw [Tiers.get?_isSome_iff, hk]

/-- C8, counterexample. The accepted update `{"Gold": -1}` leaves the tier
Gold with the negative limit -1. -/
theorem negative_limit_accepted :
    (serve initialState (updateRequest [("Gold", -1)])).2 = { status := 200, body := Body.empty } ∧
    Tiers.get? (run initialState [updateRequest [("Gold", -1)]]).tiers "Gold" = some (-1) ∧
    ¬ ∀ p ∈ (run initialState [updateRequest [("Gold", -1)]]).tiers, 0 ≤ p.2 := by
  decide

/-- C8, amended. In every state reached from the initial state by serving
requests whose `POST /tiers` bodies decode to non-negative limits only, the
limit stored for every tier is non-negative. -/
theorem limits_nonneg (rs : List Request)
    (h : ∀ r ∈ rs, r.path = "/tiers" → r.method = "POST" →
      ∀ changes, r.decoded = Except.ok changes → ∀ p ∈ changes, 0 ≤ p.2) :
    ∀ p ∈ (run initialState rs).tiers, 0 ≤ p.2 := by
  have gen : ∀ (rs : List Request) (s : State), (∀ p ∈ s.tiers, 0 ≤ p.2) →
      (∀ r ∈ rs, r.path = "/tiers" → r.method = "POST" →
        ∀ changes, r.decoded = Except.ok changes → ∀ p ∈ changes, 0 ≤ p.2) →
      ∀ p ∈ (run s rs).tiers, 0 ≤ p.2 := by
    intro rs
    induction rs with
    | nil => intro s hs _; exact hs
    | cons r rest ih =>
      intro s hs hr
      rw [run_cons]
      apply ih
      · rcases serve_tiers s r with e | ⟨c, hd, hp, hm, e⟩
        · rw [e]; exact hs
        · rw [e]
          exact rangeNewTierLimits_nonneg c s.tiers hs
            (hr r (List.mem_cons_self _ _) hp hm c hd)
      · intro q hq; exact hr q (List.mem_cons_of_mem _ hq)
  exact gen rs initialState (by decide) h

/-- C8, instance of `limits_nonneg` at a concrete state and request. -/
theorem limits_nonneg_witness :
    (("Gold", 999) : String × Int)
        ∈ (run initialState [updateRequest [("Gold", 999)], incrementRequest]).tiers ∧
    0 ≤ (("Gold", 999) : String × Int).2 :=
  ⟨by decide,
   limits_nonneg [updateRequest [("Gold", 999)], incrementRequest] (by
    intro r hr _ _ changes hd p hp
    simp only [List.mem_cons, List.mem_singleton, List.not_mem_nil, or_false] at hr
    rcases hr with e | e
    · subst e
      simp only [updateRequest, Except.ok.injEq] at hd
      subst hd
      simp only [List.mem_singleton] at hp
      subst hp
      decide
    · subst e
      simp only [incrementRequest, Except.ok.injEq] at hd
      subst hd
      simp at hp) ("Gold", 999) (by decide)⟩

/-- C9, counterexample. A `GET /my-llm` without credentials is answered 200
with the counter value, not 401. -/
theorem counter_read_without_credentials :
    (serve { counter := 7, tiers := initialTiers } (readRequest none)).2
      = { status := 200, body := Body.counterJSON 7 } ∧
    (serve { counter := 7, tiers := initialTiers } (readRequest none)).2.status ≠ 401 := by
  decide

/-- C9, amended. A `GET /my-llm` is answered 200 with the current counter
value as `{"counter": c}` whatever credentials it carries, missing and wrong
ones included, and leaves the counter and the registry unchanged. -/
theorem counter_read_ungated (s : State) (r : Request)
    (hm : r.method = "GET") (hp : r.path = "/my-llm") :
    serve s r = (s, { status := 200, body := Body.counterJSON s.counter }) := by
  simp [serve, myLLMEndpointHandler, hm, hp, MethodPost, MethodGet, StatusOK]

/-- C9, instance of `counter_read_ungated` at a concrete state and request. -/
theorem counter_read_ungated_witness :
    serve { counter := 7, tiers := initialTiers } (readRequest (some ("eventing", "wrong")))
      = ({ counter := 7, tiers := initialTiers }, { status := 200, body := Body.counterJSON 7 }) :=
  counter_read_ungated { counter := 7, tiers := initialTiers }
    (readRequest (some ("eventing", "wrong"))) rfl rfl

end RateLimiter
